import Mathlib

/-!
Verification of the yasno-exporter program (src/yasno_exporter.py).

The development shallowly embeds the program's core: metric-name
derivation and validation (`YasnoMetric.convert_yasno_key_to_prometheus_name`),
the metric registry kept in `Worker.metrics_collector`, the per-group
calendar evaluator, and the gauge-writing phase of `Worker.process_calendar`.
Strings are Lean `String`s, instants are `Int`, gauge storage is a function
from metric name and group label to an optional value, and Python
exceptions are `Except` errors.
-/

namespace YasnoExporter

instance {ε α : Type} [DecidableEq ε] [DecidableEq α] : DecidableEq (Except ε α) := fun a b =>
  match a, b with
  | .error e, .error f =>
      if h : e = f then .isTrue (by rw [h]) else .isFalse (by intro hh; injection hh; contradiction)
  | .error _, .ok _ => .isFalse (by intro hh; exact Except.noConfusion hh)
  | .ok _, .error _ => .isFalse (by intro hh; exact Except.noConfusion hh)
  | .ok a, .ok b =>
      if h : a = b then .isTrue (by rw [h]) else .isFalse (by intro hh; injection hh; contradiction)

/-- ASCII fragment of Python's per-character `str.isupper`, as used by
`convert_yasno_key_to_prometheus_name` (all keys fed to it are ASCII). -/
def pyIsUpper (c : Char) : Bool := decide (65 ≤ c.toNat ∧ c.toNat ≤ 90)

/-- ASCII fragment of Python's per-character `str.lower`. -/
def pyToLower (c : Char) : Char :=
  if 65 ≤ c.toNat ∧ c.toNat ≤ 90 then Char.ofNat (c.toNat + 32) else c

/-- Python exceptions raised by `convert_yasno_key_to_prometheus_name`:
`key[0]` on an empty string raises `IndexError`; a failed validation raises
the program's own `YasnoMetricException`. -/
inductive ConvError where
  | indexError
  | yasnoMetricException
deriving DecidableEq, Repr

/-- `self.yasno_key.replace(".", "_")` on the character list of the key. -/
def pyReplaceDots (s : List Char) : List Char :=
  s.map fun c => if c = '.' then '_' else c

/-- The `for character in key[1:]` loop of
`convert_yasno_key_to_prometheus_name`: `acc` is the string `new` built so
far (always nonempty); `new[-1]` is the last element of `acc`. -/
def walkAux (acc : List Char) : List Char → List Char
  | [] => acc
  | c :: rest =>
      let acc1 := if pyIsUpper c = true ∧ acc.getLast? ≠ some '_' then acc ++ ['_'] else acc
      walkAux (acc1 ++ [pyToLower c]) rest

/-- The value of the variable `new` at the end of the loop: dot
replacement, `key[0].lower()`, then the walk. `none` when the key is empty
(`key[0]` would raise `IndexError`). -/
def deriveRaw (yasno_key : String) : Option (List Char) :=
  match pyReplaceDots yasno_key.data with
  | [] => none
  | c :: rest => some (walkAux [pyToLower c] rest)

/-- First character class of the validation pattern `[a-zA-Z_:]`. -/
def isClass1 (c : Char) : Bool :=
  decide ((97 ≤ c.toNat ∧ c.toNat ≤ 122) ∨ (65 ≤ c.toNat ∧ c.toNat ≤ 90) ∨ c = '_' ∨ c = ':')

/-- Repeated character class of the validation pattern `[a-zA-Z0-9_:]`. -/
def isClass2 (c : Char) : Bool :=
  isClass1 c || decide (48 ≤ c.toNat ∧ c.toNat ≤ 57)

/-- `re.match("[a-zA-Z_:][a-zA-Z0-9_:]*", s)` is truthy exactly when some
match of the pattern starts at position 0; since the starred class may
match zero characters, that holds exactly when `s` starts with a
`[a-zA-Z_:]` character. -/
def reMatches (s : List Char) : Bool :=
  match s with
  | [] => false
  | c :: _ => isClass1 c

/-- A full (end-anchored) match of `[a-zA-Z_:][a-zA-Z0-9_:]*` against the
whole string, for contrast with the source's start-anchored `re.match`. -/
def fullMatches (s : List Char) : Bool :=
  match s with
  | [] => false
  | c :: cs => isClass1 c && cs.all isClass2

/-- `YasnoMetric.convert_yasno_key_to_prometheus_name`: build `new`, then
validate it with `re.match`; raising is modelled as `Except.error`. -/
def convert_yasno_key_to_prometheus_name (yasno_key : String) : Except ConvError String :=
  match deriveRaw yasno_key with
  | none => .error .indexError
  | some new =>
      if reMatches new then .ok (String.mk new) else .error .yasnoMetricException

/-- A `YasnoMetric` object: its source key and the gauge name
`f"yasno_{...}"` registered for it. The prometheus `Gauge` object itself
is identified by its name. -/
structure YasnoMetric where
  yasno_key : String
  name : String
deriving DecidableEq, Repr

/-- The `YasnoMetric.__init__` constructor: derive the name (possibly
raising) and form `f"yasno_{...}"`. -/
def mkYasnoMetric (yasno_key : String) : Except ConvError YasnoMetric :=
  match convert_yasno_key_to_prometheus_name yasno_key with
  | .ok n => .ok ⟨yasno_key, "yasno_" ++ n⟩
  | .error e => .error e

/-- `Worker.get_metric_by_yasno_key`: linear scan of
`self.metrics_collector`, first entry whose `yasno_key` matches;
the Python `False` result is `none`. -/
def get_metric_by_yasno_key (reg : List YasnoMetric) (yasno_key : String) : Option YasnoMetric :=
  reg.find? fun m => m.yasno_key = yasno_key

/-- The per-key body of the metric-ensuring loop in
`Worker.process_calendar`: look up the key; when absent, try to construct
the metric, appending it on success. The `try` around the constructor
catches only `YasnoMetricException` (logged, `continue` — the key is
skipped and the collector left unchanged); the `IndexError` of `key[0]`
on an empty key is NOT caught and propagates. Returns the metric now
associated to the key (if any) together with the updated collector. -/
def ensure (reg : List YasnoMetric) (yasno_key : String) :
    Except ConvError (Option YasnoMetric × List YasnoMetric) :=
  match get_metric_by_yasno_key reg yasno_key with
  | some m => .ok (some m, reg)
  | none =>
      match mkYasnoMetric yasno_key with
      | .ok m => .ok (some m, reg ++ [m])
      | .error .yasnoMetricException => .ok (none, reg)
      | .error .indexError => .error .indexError

/-- The collector-state effect of one iteration of the ensuring loop; an
uncaught `IndexError` propagates. -/
def ensureKey (reg : List YasnoMetric) (yasno_key : String) :
    Except ConvError (List YasnoMetric) :=
  match ensure reg yasno_key with
  | .ok t => .ok t.2
  | .error e => .error e

/-- The whole `for yasno_key in [...]` ensuring loop; an uncaught
exception from any iteration aborts the loop. -/
def ensureKeys (reg : List YasnoMetric) : List String → Except ConvError (List YasnoMetric)
  | [] => .ok reg
  | k :: ks =>
      match ensureKey reg k with
      | .ok reg2 => ensureKeys reg2 ks
      | .error e => .error e

/-- Number of collector entries holding a given source key. -/
def countKey (reg : List YasnoMetric) (yasno_key : String) : Nat :=
  (reg.filter fun m => m.yasno_key = yasno_key).length

/-- Well-formedness of the collector: every entry is one actually built by
the `YasnoMetric` constructor from its own key.  Holds for the initial
empty collector and is preserved by the ensuring loop. -/
def WF (reg : List YasnoMetric) : Prop :=
  ∀ m ∈ reg, mkYasnoMetric m.yasno_key = .ok m

/-- The string constants `self.BLACKOUT`, `self.POSSIBLE_BLACKOUT`,
`self.NO_BLACKOUT`. -/
def BLACKOUT : String := "blackout"

def POSSIBLE_BLACKOUT : String := "possible_blackout"

def NO_BLACKOUT : String := "no_blackout"

/-- The key list iterated by the ensuring loop. -/
def STATUS_KEYS : List String := [BLACKOUT, POSSIBLE_BLACKOUT, NO_BLACKOUT]

/-- The group names `f"group_{id}" for id in range(1, 7)`. -/
def GROUPS : List String :=
  ["group_1", "group_2", "group_3", "group_4", "group_5", "group_6"]

/-- One calendar component as exposed by `icalendar`: its component name,
`summary`, `dtstart.dt` and `dtend.dt` (instants as integers). -/
structure VComponent where
  name : String
  summary : String
  dtstart : Int
  dtend : Int
deriving DecidableEq, Repr

/-- Result of the event-scanning loop: the two flags plus the index of the
next unread clock value (each `VEVENT` iteration evaluates
`UTC.localize(datetime.now())` once). -/
structure ScanResult where
  blackout : Bool
  possible_blackout : Bool
  nextClock : Nat
deriving DecidableEq, Repr

/-- The `for component in gcal.walk()` loop of `Worker.process_calendar`.
`clock` is the stream of values returned by successive
`UTC.localize(datetime.now())` calls and `i` the index of the next one;
the strict test is `now > start_time and now < end_time`; the summary
"Світла немає" sets `blackout` and breaks, "Можливе відключення" sets
`possible_blackout` and keeps scanning. -/
def scanEvents (clock : Nat → Int) : Nat → List VComponent → Bool → Bool → ScanResult
  | i, [], b, p => ⟨b, p, i⟩
  | i, e :: rest, b, p =>
      if e.name = "VEVENT" then
        let now := clock i
        if e.dtstart < now ∧ now < e.dtend then
          if e.summary = "Світла немає" then ⟨true, p, i + 1⟩
          else if e.summary = "Можливе відключення" then scanEvents clock (i + 1) rest b true
          else scanEvents clock (i + 1) rest b p
        else scanEvents clock (i + 1) rest b p
      else scanEvents clock i rest b p

/-- Gauge storage: metric name and group label to last set value. -/
def GState : Type := String → String → Option Int

/-- `self.metric.labels(group=label).set(value)` for the gauge named
`name`. -/
def setG (st : GState) (name grp : String) (v : Int) : GState :=
  fun n g => if n = name ∧ g = grp then some v else st n g

/-- The empty gauge storage (no label pair ever set). -/
def emptyG : GState := fun _ _ => none

/-- Runtime exceptions of the cycle that are not caught anywhere in the
source: a `requests`/`icalendar` failure while fetching or parsing the
feed, the `AttributeError` raised by `metric.set(...)` when
`get_metric_by_yasno_key` returned `False`, and the `IndexError` of
`key[0]` escaping the ensuring loop (its `except` clause names only
`YasnoMetricException`). -/
inductive RtError where
  | fetchOrParse
  | attributeError
  | indexError
deriving DecidableEq, Repr

/-- `metric = self.get_metric_by_yasno_key(key); metric.set(value, group)`:
calling `.set` on the `False` returned for a missing metric raises
`AttributeError`. -/
def setMetric (reg : List YasnoMetric) (yasno_key grp : String) (v : Int) (st : GState) :
    Except RtError GState :=
  match get_metric_by_yasno_key reg yasno_key with
  | none => .error .attributeError
  | some m => .ok (setG st m.name grp v)

/-- The `if blackout: ... elif possible_blackout: ... else: ...` write
phase at the end of `Worker.process_calendar`. -/
def writeStatus (reg : List YasnoMetric) (grp : String) (blackout possible_blackout : Bool)
    (st : GState) : Except RtError GState :=
  if blackout then do
    let st ← setMetric reg BLACKOUT grp 1 st
    let st ← setMetric reg POSSIBLE_BLACKOUT grp 0 st
    setMetric reg NO_BLACKOUT grp 0 st
  else if possible_blackout then do
    let st ← setMetric reg BLACKOUT grp 0 st
    let st ← setMetric reg POSSIBLE_BLACKOUT grp 1 st
    setMetric reg NO_BLACKOUT grp 0 st
  else do
    let st ← setMetric reg BLACKOUT grp 0 st
    let st ← setMetric reg POSSIBLE_BLACKOUT grp 0 st
    setMetric reg NO_BLACKOUT grp 1 st

/-- The per-group body of `Worker.process_calendar`: ensure the three
status metrics, fetch and parse the group's feed (`requests.get` plus
`Calendar.from_ical`, abstracted as one fallible call — either failure
raises and nothing catches it), scan the events, then write the three
gauges. -/
def processGroup (fetch : String → Except Unit (List VComponent)) (clock : Nat → Int)
    (grp : String) (reg : List YasnoMetric) (st : GState) (ci : Nat) :
    Except RtError (List YasnoMetric × GState × Nat) :=
  match ensureKeys reg STATUS_KEYS with
  | .error _ => .error .indexError
  | .ok reg =>
      match fetch grp with
      | .error _ => .error .fetchOrParse
      | .ok events =>
          let r := scanEvents clock ci events false false
          match writeStatus reg grp r.blackout r.possible_blackout st with
          | .error e => .error e
          | .ok st => .ok (reg, st, r.nextClock)

/-- The `for id in range(1, 7)` loop over a list of group names; an
exception in any group's body propagates out of the whole call. -/
def processGroups (fetch : String → Except Unit (List VComponent)) (clock : Nat → Int) :
    List String → List YasnoMetric → GState → Nat →
    Except RtError (List YasnoMetric × GState × Nat)
  | [], reg, st, ci => .ok (reg, st, ci)
  | g :: gs, reg, st, ci =>
      match processGroup fetch clock g reg st ci with
      | .error e => .error e
      | .ok (reg, st, ci) => processGroups fetch clock gs reg st ci

/-- `Worker.process_calendar`: the group loop over `group_1 .. group_6`. -/
def process_calendar (fetch : String → Except Unit (List VComponent)) (clock : Nat → Int)
    (reg : List YasnoMetric) (st : GState) (ci : Nat) :
    Except RtError (List YasnoMetric × GState × Nat) :=
  processGroups fetch clock GROUPS reg st ci

/-- `Worker.loop`, unrolled to `n` cycles: `process_calendar` then sleep,
forever; an exception escaping `process_calendar` terminates the loop. -/
def loopN (fetch : String → Except Unit (List VComponent)) (clock : Nat → Int) :
    Nat → List YasnoMetric → GState → Nat →
    Except RtError (List YasnoMetric × GState × Nat)
  | 0, reg, st, ci => .ok (reg, st, ci)
  | n + 1, reg, st, ci =>
      match process_calendar fetch clock reg st ci with
      | .error e => .error e
      | .ok (reg, st, ci) => loopN fetch clock n reg st ci

/-- The tri-state chosen by the `if blackout / elif possible_blackout /
else` branch of the write phase, as the triple of values written to the
(blackout, possible_blackout, no_blackout) gauges. -/
def triState (b p : Bool) : Bool × Bool × Bool :=
  if b then (true, false, false)
  else if p then (false, true, false)
  else (false, false, true)

/-- Spec-side rendering (for the refinement comparison of the
name-derivation algorithm) of one step of the spec's walk: "for each
subsequent character: if it is an uppercase letter AND the last character
appended to the output so far is not `_`, append a `_` before appending
its lower-cased form; otherwise append its lower-cased form directly". -/
def specStep (acc : List Char) (c : Char) : List Char :=
  if pyIsUpper c = true ∧ acc.getLast? ≠ some '_' then acc ++ ['_', pyToLower c]
  else acc ++ [pyToLower c]

/-- Spec-side rendering of the full derivation algorithm: "replacing every
`.` with `_`, lower-casing the first character unconditionally", then
folding `specStep` over the remaining characters. -/
def specDerive (yasno_key : String) : Option (List Char) :=
  match (yasno_key.data.map fun c => if c = '.' then '_' else c) with
  | [] => none
  | c :: rest => some (rest.foldl specStep [pyToLower c])

/-- Spec-side rendering of the single-instant reference evaluator: the
same scan, but every event's activity test uses the one instant `now`
computed once for the group. -/
def specSingleInstantScan (now : Int) : List VComponent → Bool → Bool → Bool × Bool
  | [], b, p => (b, p)
  | e :: rest, b, p =>
      if e.name = "VEVENT" then
        if e.dtstart < now ∧ now < e.dtend then
          if e.summary = "Світла немає" then (true, p)
          else if e.summary = "Можливе відключення" then specSingleInstantScan now rest b true
          else specSingleInstantScan now rest b p
        else specSingleInstantScan now rest b p
      else specSingleInstantScan now rest b p

/-! ### Character lemmas -/

theorem char_toNat_ofNat (m : Nat) (h : m.isValidChar) : (Char.ofNat m).toNat = m := by
  rw [Char.ofNat, dif_pos h]
  rfl

theorem pyToLower_of_not_upper {c : Char} (h : pyIsUpper c = false) : pyToLower c = c := by
  have h' : ¬ (65 ≤ c.toNat ∧ c.toNat ≤ 90) := by
    simpa [pyIsUpper] using h
  rw [pyToLower, if_neg h']

theorem pyIsUpper_pyToLower (c : Char) : pyIsUpper (pyToLower c) = false := by
  by_cases h : 65 ≤ c.toNat ∧ c.toNat ≤ 90
  · have hv : Nat.isValidChar (c.toNat + 32) := Or.inl (by omega)
    rw [pyToLower, if_pos h]
    simp only [pyIsUpper, char_toNat_ofNat _ hv]
    simp only [decide_eq_false_iff_not]
    omega
  · rw [pyToLower, if_neg h]
    simp only [pyIsUpper, decide_eq_false_iff_not]
    omega

theorem pyToLower_ne_dot {c : Char} (h : c ≠ '.') : pyToLower c ≠ '.' := by
  by_cases hu : 65 ≤ c.toNat ∧ c.toNat ≤ 90
  · have hv : Nat.isValidChar (c.toNat + 32) := Or.inl (by omega)
    rw [pyToLower, if_pos hu]
    intro heq
    have h46 : (Char.ofNat (c.toNat + 32)).toNat = ('.' : Char).toNat := congrArg Char.toNat heq
    rw [char_toNat_ofNat _ hv] at h46
    have hd : ('.' : Char).toNat = 46 := rfl
    omega
  · rw [pyToLower, if_neg hu]
    exact h

/-! ### Registry lemmas -/

theorem walkAux_eq_foldl (l : List Char) : ∀ acc : List Char, walkAux acc l = l.foldl specStep acc := by
  induction l with
  | nil => intro acc; rfl
  | cons c rest ih =>
      intro acc
      rw [walkAux, List.foldl_cons, specStep]
      by_cases h : pyIsUpper c = true ∧ acc.getLast? ≠ some '_'
      · rw [if_pos h, if_pos h, ih, List.append_assoc]
        rfl
      · rw [if_neg h, if_neg h, ih]

theorem deriveRaw_eq_specDerive (yasno_key : String) : deriveRaw yasno_key = specDerive yasno_key := by
  rw [deriveRaw, specDerive, pyReplaceDots]
  cases yasno_key.data.map fun c => if c = '.' then '_' else c with
  | nil => rfl
  | cons c rest =>
      show some (walkAux [pyToLower c] rest) = some (rest.foldl specStep [pyToLower c])
      rw [walkAux_eq_foldl]

theorem mkYasnoMetric_key {yasno_key : String} {m : YasnoMetric}
    (h : mkYasnoMetric yasno_key = .ok m) : m.yasno_key = yasno_key := by
  rw [mkYasnoMetric] at h
  cases hc : convert_yasno_key_to_prometheus_name yasno_key with
  | ok n => rw [hc] at h; injection h with h; rw [← h]
  | error e => rw [hc] at h; exact Except.noConfusion h

theorem ensureKey_of_yasnoException {yasno_key : String}
    (h : mkYasnoMetric yasno_key = .error .yasnoMetricException) (reg : List YasnoMetric) :
    ensureKey reg yasno_key = .ok reg := by
  rw [ensureKey, ensure]
  cases hf : get_metric_by_yasno_key reg yasno_key with
  | some m => rfl
  | none => rw [h]

theorem WF_ensureKey {reg reg2 : List YasnoMetric} (hwf : WF reg) {k : String}
    (h : ensureKey reg k = .ok reg2) : WF reg2 := by
  rw [ensureKey, ensure] at h
  cases hf : get_metric_by_yasno_key reg k with
  | some m =>
      rw [hf] at h
      injection h with h
      rw [← h]
      exact hwf
  | none =>
      rw [hf] at h
      cases hm : mkYasnoMetric k with
      | ok m =>
          rw [hm] at h
          injection h with h
          rw [← h]
          intro x hx
          rcases List.mem_append.mp hx with hx | hx
          · exact hwf x hx
          · rcases List.mem_singleton.mp hx with rfl
            rw [mkYasnoMetric_key hm]
            exact hm
      | error e =>
          rw [hm] at h
          cases e with
          | yasnoMetricException =>
              injection h with h
              rw [← h]
              exact hwf
          | indexError => exact Except.noConfusion h

theorem lookup_ensureKey {reg : List YasnoMetric} {k : String} {m : YasnoMetric}
    (hwf : WF reg) (hm : mkYasnoMetric k = .ok m) :
    ∃ reg2, ensureKey reg k = .ok reg2 ∧ get_metric_by_yasno_key reg2 k = some m := by
  rw [ensureKey, ensure]
  cases hf : get_metric_by_yasno_key reg k with
  | some m2 =>
      have hmem := List.mem_of_find?_eq_some hf
      have hkey : m2.yasno_key = k := by
        have := List.find?_some hf
        exact of_decide_eq_true this
      have hw := hwf m2 hmem
      rw [hkey, hm] at hw
      injection hw with hw
      refine ⟨reg, rfl, ?_⟩
      rw [hf, hw]
  | none =>
      rw [hm]
      refine ⟨reg ++ [m], rfl, ?_⟩
      rw [get_metric_by_yasno_key, List.find?_append]
      rw [get_metric_by_yasno_key] at hf
      rw [hf, Option.none_or]
      exact List.find?_cons_of_pos _ (decide_eq_true (mkYasnoMetric_key hm))

theorem lookup_stable {reg reg2 : List YasnoMetric} {k : String} {m : YasnoMetric}
    (h : get_metric_by_yasno_key reg k = some m) {k2 : String}
    (he : ensureKey reg k2 = .ok reg2) :
    get_metric_by_yasno_key reg2 k = some m := by
  rw [ensureKey, ensure] at he
  cases hf : get_metric_by_yasno_key reg k2 with
  | some m2 =>
      rw [hf] at he
      injection he with he
      rw [← he]
      exact h
  | none =>
      rw [hf] at he
      cases hm : mkYasnoMetric k2 with
      | ok m2 =>
          rw [hm] at he
          injection he with he
          rw [← he]
          rw [get_metric_by_yasno_key, List.find?_append]
          rw [get_metric_by_yasno_key] at h
          rw [h]
          rfl
      | error e =>
          rw [hm] at he
          cases e with
          | yasnoMetricException =>
              injection he with he
              rw [← he]
              exact h
          | indexError => exact Except.noConfusion he

/-! ### The three status metrics and the write phase -/

theorem mk_blackout : mkYasnoMetric BLACKOUT = .ok ⟨BLACKOUT, "yasno_blackout"⟩ := by decide

theorem mk_possible : mkYasnoMetric POSSIBLE_BLACKOUT =
    .ok ⟨POSSIBLE_BLACKOUT, "yasno_possible_blackout"⟩ := by decide

theorem mk_no : mkYasnoMetric NO_BLACKOUT = .ok ⟨NO_BLACKOUT, "yasno_no_blackout"⟩ := by decide

theorem lookup_status_keys {reg : List YasnoMetric} (hwf : WF reg) :
    ∃ reg3, ensureKeys reg STATUS_KEYS = .ok reg3 ∧
      get_metric_by_yasno_key reg3 BLACKOUT = some ⟨BLACKOUT, "yasno_blackout"⟩ ∧
      get_metric_by_yasno_key reg3 POSSIBLE_BLACKOUT =
        some ⟨POSSIBLE_BLACKOUT, "yasno_possible_blackout"⟩ ∧
      get_metric_by_yasno_key reg3 NO_BLACKOUT = some ⟨NO_BLACKOUT, "yasno_no_blackout"⟩ ∧
      WF reg3 := by
  obtain ⟨r1, e1, l1⟩ := lookup_ensureKey hwf mk_blackout
  have w1 : WF r1 := WF_ensureKey hwf e1
  obtain ⟨r2, e2, l2⟩ := lookup_ensureKey w1 mk_possible
  have w2 : WF r2 := WF_ensureKey w1 e2
  obtain ⟨r3, e3, l3⟩ := lookup_ensureKey w2 mk_no
  have w3 : WF r3 := WF_ensureKey w2 e3
  have s1 : get_metric_by_yasno_key r3 BLACKOUT = some ⟨BLACKOUT, "yasno_blackout"⟩ :=
    lookup_stable (lookup_stable l1 e2) e3
  have s2 := lookup_stable l2 e3
  refine ⟨r3, ?_, s1, s2, l3, w3⟩
  simp only [STATUS_KEYS, ensureKeys, e1, e2, e3]

theorem writeStatus_triple {reg : List YasnoMetric} {grp : String} {st stw : GState}
    (hB : get_metric_by_yasno_key reg BLACKOUT = some ⟨BLACKOUT, "yasno_blackout"⟩)
    (hP : get_metric_by_yasno_key reg POSSIBLE_BLACKOUT =
        some ⟨POSSIBLE_BLACKOUT, "yasno_possible_blackout"⟩)
    (hN : get_metric_by_yasno_key reg NO_BLACKOUT = some ⟨NO_BLACKOUT, "yasno_no_blackout"⟩)
    (b p : Bool) (h : writeStatus reg grp b p st = .ok stw) :
    (stw "yasno_blackout" grp, stw "yasno_possible_blackout" grp, stw "yasno_no_blackout" grp) =
      (some (if (triState b p).1 then 1 else 0),
       some (if (triState b p).2.1 then 1 else 0),
       some (if (triState b p).2.2 then 1 else 0)) := by
  rw [writeStatus] at h
  cases b with
  | true =>
      rw [if_pos rfl] at h
      simp only [bind, Except.bind, setMetric, hB, hP, hN] at h
      injection h with h
      rw [← h]
      simp [setG, triState]
  | false =>
      rw [if_neg (by simp)] at h
      cases p with
      | true =>
          rw [if_pos rfl] at h
          simp only [bind, Except.bind, setMetric, hB, hP, hN] at h
          injection h with h
          rw [← h]
          simp [setG, triState]
      | false =>
          rw [if_neg (by simp)] at h
          simp only [bind, Except.bind, setMetric, hB, hP, hN] at h
          injection h with h
          rw [← h]
          simp [setG, triState]

/-! ### Claim C1 -/

/-- C1: for every group whose cycle completes without error, after the
three gauge writes for that group exactly one of the three gauges
(blackout, possible_blackout, no_blackout) holds value 1 at label=group
and the other two hold 0; all three are written together in the same
cycle, never partially. -/
theorem processGroup_writes_exclusive_triple
    (fetch : String → Except Unit (List VComponent)) (clock : Nat → Int)
    (grp : String) (reg : List YasnoMetric) (st : GState) (ci : Nat)
    (r : List YasnoMetric × GState × Nat)
    (hwf : WF reg) (h : processGroup fetch clock grp reg st ci = .ok r) :
    (r.2.1 "yasno_blackout" grp, r.2.1 "yasno_possible_blackout" grp,
        r.2.1 "yasno_no_blackout" grp) = (some 1, some 0, some 0) ∨
    (r.2.1 "yasno_blackout" grp, r.2.1 "yasno_possible_blackout" grp,
        r.2.1 "yasno_no_blackout" grp) = (some 0, some 1, some 0) ∨
    (r.2.1 "yasno_blackout" grp, r.2.1 "yasno_possible_blackout" grp,
        r.2.1 "yasno_no_blackout" grp) = (some 0, some 0, some 1) := by
  simp only [processGroup] at h
  obtain ⟨reg3, he, hB, hP, hN, hwfR⟩ := lookup_status_keys hwf
  rw [he] at h
  dsimp only at h
  cases hf : fetch grp with
  | error u => rw [hf] at h; exact Except.noConfusion h
  | ok events =>
      rw [hf] at h
      dsimp only at h
      cases hw : writeStatus reg3 grp
          (scanEvents clock ci events false false).blackout
          (scanEvents clock ci events false false).possible_blackout st with
      | error e => rw [hw] at h; exact Except.noConfusion h
      | ok st' =>
          rw [hw] at h
          dsimp only at h
          injection h with h
          have ht := writeStatus_triple hB hP hN _ _ hw
          rw [← h]
          cases hb : (scanEvents clock ci events false false).blackout <;>
            cases hp : (scanEvents clock ci events false false).possible_blackout <;>
            rw [hb, hp] at ht <;> simp only [triState] at ht <;> simp at ht
          · right; right
            simpa using ht
          · right; left
            simpa using ht
          · left
            simpa using ht
          · left
            simpa using ht

/-- Witness for C1 at a concrete input: the empty collector is
well-formed, a fetch returning an empty calendar completes, and the
written triple is one of the three exclusive ones. -/
theorem processGroup_writes_exclusive_triple_witness :
    ∃ r, processGroup (fun _ => .ok []) (fun _ => 0) "group_1" [] emptyG 0 = .ok r ∧
      ((r.2.1 "yasno_blackout" "group_1", r.2.1 "yasno_possible_blackout" "group_1",
          r.2.1 "yasno_no_blackout" "group_1") = (some 1, some 0, some 0) ∨
       (r.2.1 "yasno_blackout" "group_1", r.2.1 "yasno_possible_blackout" "group_1",
          r.2.1 "yasno_no_blackout" "group_1") = (some 0, some 1, some 0) ∨
       (r.2.1 "yasno_blackout" "group_1", r.2.1 "yasno_possible_blackout" "group_1",
          r.2.1 "yasno_no_blackout" "group_1") = (some 0, some 0, some 1)) := by
  refine ⟨_, rfl, ?_⟩
  exact processGroup_writes_exclusive_triple (fun _ => .ok []) (fun _ => 0) "group_1" [] emptyG 0 _
    (by intro m hm; exact absurd hm (List.not_mem_nil m)) rfl

/-! ### Claim C2 -/

theorem scan_blackout_of_mem (now : Int) : ∀ (es : List VComponent) (i : Nat) (b p : Bool),
    (∃ e ∈ es, e.name = "VEVENT" ∧ e.dtstart < now ∧ now < e.dtend ∧
      e.summary = "Світла немає") →
    (scanEvents (fun _ => now) i es b p).blackout = true := by
  intro es
  induction es with
  | nil =>
      intro i b p h
      rcases h with ⟨w, hw, _⟩
      exact absurd hw (List.not_mem_nil w)
  | cons e rest ih =>
      intro i b p h
      rcases h with ⟨w, hw, hcond⟩
      by_cases h1 : e.name = "VEVENT"
      · by_cases h2 : e.dtstart < now ∧ now < e.dtend
        · by_cases h3 : e.summary = "Світла немає"
          · simp [scanEvents, h1, h2, h3]
          · have hwr : w ∈ rest := by
              rcases List.mem_cons.mp hw with rfl | hr
              · exact absurd hcond.2.2.2 h3
              · exact hr
            by_cases h4 : e.summary = "Можливе відключення"
            · have hrec := ih (i + 1) b true ⟨w, hwr, hcond⟩
              simpa [scanEvents, h1, h2, h3, h4] using hrec
            · have hrec := ih (i + 1) b p ⟨w, hwr, hcond⟩
              simpa [scanEvents, h1, h2, h3, h4] using hrec
        · have hwr : w ∈ rest := by
            rcases List.mem_cons.mp hw with rfl | hr
            · exact absurd ⟨hcond.2.1, hcond.2.2.1⟩ h2
            · exact hr
          have hrec := ih (i + 1) b p ⟨w, hwr, hcond⟩
          simpa [scanEvents, h1, h2] using hrec
      · have hwr : w ∈ rest := by
          rcases List.mem_cons.mp hw with rfl | hr
          · exact absurd hcond.1 h1
          · exact hr
        have hrec := ih i b p ⟨w, hwr, hcond⟩
        simpa [scanEvents, h1] using hrec

/-- C2: for every event sequence and every instant `now`, the tri-state
result obeys the precedence blackout > possible_blackout > no_blackout
with exactly one of the three true; and whenever some event covering `now`
carries the "no power" summary ("Світла немає"), the result is
blackout=true, possible_blackout=false, no_blackout=false, regardless of
where that event sits in the sequence. -/
theorem evaluator_precedence_blackout_wins (now : Int) (es : List VComponent) :
    (triState (scanEvents (fun _ => now) 0 es false false).blackout
        (scanEvents (fun _ => now) 0 es false false).possible_blackout = (true, false, false) ∨
     triState (scanEvents (fun _ => now) 0 es false false).blackout
        (scanEvents (fun _ => now) 0 es false false).possible_blackout = (false, true, false) ∨
     triState (scanEvents (fun _ => now) 0 es false false).blackout
        (scanEvents (fun _ => now) 0 es false false).possible_blackout = (false, false, true)) ∧
    ((∃ e ∈ es, e.name = "VEVENT" ∧ e.dtstart < now ∧ now < e.dtend ∧
        e.summary = "Світла немає") →
      triState (scanEvents (fun _ => now) 0 es false false).blackout
        (scanEvents (fun _ => now) 0 es false false).possible_blackout = (true, false, false)) := by
  constructor
  · cases (scanEvents (fun _ => now) 0 es false false).blackout <;>
      cases (scanEvents (fun _ => now) 0 es false false).possible_blackout <;>
      simp [triState]
  · intro h
    rw [scan_blackout_of_mem now es 0 false false h]
    rfl

/-- Witness for C2: a calendar with an overlapping "possible outage" event
before a "no power" event, both covering now = 0; the result is the
blackout triple. -/
theorem evaluator_precedence_blackout_wins_witness :
    triState (scanEvents (fun _ => (0 : Int)) 0
        [⟨"VEVENT", "Можливе відключення", -1, 1⟩, ⟨"VEVENT", "Світла немає", -1, 1⟩]
        false false).blackout
      (scanEvents (fun _ => (0 : Int)) 0
        [⟨"VEVENT", "Можливе відключення", -1, 1⟩, ⟨"VEVENT", "Світла немає", -1, 1⟩]
        false false).possible_blackout = (true, false, false) :=
  (evaluator_precedence_blackout_wins 0
    [⟨"VEVENT", "Можливе відключення", -1, 1⟩, ⟨"VEVENT", "Світла немає", -1, 1⟩]).2
    (by decide)

/-! ### Claim C3 -/

/-- C3 counterexample: with `group_3`'s fetch failing and every other
group fine, the exception escapes `process_calendar` (the cycle does not
complete) and one further loop iteration terminates the loop — the source
wraps neither `requests.get` nor `Calendar.from_ical` in any
`try`/`except`. -/
theorem fetch_failure_escapes_cycle_cex :
    (process_calendar (fun g => if g = "group_3" then .error () else .ok []) (fun _ => 0)
        [] emptyG 0).isOk = false ∧
    (loopN (fun g => if g = "group_3" then .error () else .ok []) (fun _ => 0) 5
        [] emptyG 0).isOk = false := by
  constructor
  · rfl
  · rfl

theorem processGroups_error_of_fetch_error
    (fetch : String → Except Unit (List VComponent)) (clock : Nat → Int) :
    ∀ (gs : List String) (reg : List YasnoMetric) (st : GState) (ci : Nat),
    (∃ g ∈ gs, fetch g = .error ()) →
    (processGroups fetch clock gs reg st ci).isOk = false := by
  intro gs
  induction gs with
  | nil =>
      intro reg st ci h
      rcases h with ⟨w, hw, _⟩
      exact absurd hw (List.not_mem_nil w)
  | cons g' gs' ih =>
      intro reg st ci h
      rcases h with ⟨w, hw, hfw⟩
      cases hpg : processGroup fetch clock g' reg st ci with
      | error e => simp only [processGroups, hpg]; rfl
      | ok t =>
          rcases List.mem_cons.mp hw with rfl | hr
          · cases hek : ensureKeys reg STATUS_KEYS with
            | error e2 =>
                rw [processGroup, hek] at hpg
                exact Except.noConfusion hpg
            | ok reg3 =>
                rw [processGroup, hek] at hpg
                dsimp only at hpg
                rw [hfw] at hpg
                exact Except.noConfusion hpg
          · obtain ⟨reg', st', ci'⟩ := t
            rw [processGroups, hpg]
            exact ih reg' st' ci' ⟨w, hr, hfw⟩

/-- C3 (amended): a fetch or parse failure for any group is NOT caught:
the exception propagates out of `process_calendar`, aborting the cycle
(that group's gauges and every later group's gauges are not written), and
the very next loop iteration terminates the loop. Only name-derivation
failures are caught at the loop boundary. -/
theorem fetch_failure_aborts_cycle
    (fetch : String → Except Unit (List VComponent)) (clock : Nat → Int)
    (reg : List YasnoMetric) (st : GState) (ci : Nat)
    (h : ∃ g ∈ GROUPS, fetch g = .error ()) :
    (process_calendar fetch clock reg st ci).isOk = false ∧
    ∀ n : Nat, (loopN fetch clock (n + 1) reg st ci).isOk = false := by
  have hpc : (process_calendar fetch clock reg st ci).isOk = false :=
    processGroups_error_of_fetch_error fetch clock GROUPS reg st ci h
  refine ⟨hpc, ?_⟩
  intro n
  cases hc : process_calendar fetch clock reg st ci with
  | error e => simp only [loopN, hc]; rfl
  | ok t => rw [hc] at hpc; exact absurd hpc (by simp [Except.isOk, Except.toBool])

/-- Witness for the amended C3 at the concrete failing fetch. -/
theorem fetch_failure_aborts_cycle_witness :
    (process_calendar (fun g => if g = "group_3" then .error () else .ok []) (fun _ => 0)
        [] emptyG 0).isOk = false ∧
    (loopN (fun g => if g = "group_3" then .error () else .ok []) (fun _ => 0) 1
        [] emptyG 0).isOk = false := by
  have h := fetch_failure_aborts_cycle
    (fun g => if g = "group_3" then .error () else .ok []) (fun _ => 0) [] emptyG 0
    ⟨"group_3", by decide, by decide⟩
  exact ⟨h.1, h.2 0⟩

/-! ### Claim C4 -/

/-- C4: for every non-empty source key the derived form exists and equals
the spec's algorithm (replace every `.` by `_`, lower-case the first
character unconditionally, prepend `_` to the lower-cased form of each
subsequent uppercase character whose predecessor in the output is not `_`),
the two documented examples hold, and the gauge name registered for a key
is the fixed "yasno_" namespace concatenated with the derived form. -/
theorem name_derivation_matches_spec_algorithm :
    (∀ key : String, key ≠ "" → deriveRaw key ≠ none ∧ deriveRaw key = specDerive key) ∧
    convert_yasno_key_to_prometheus_name "bms_bmsStatus.maxCellTemp" =
      .ok "bms_bms_status_max_cell_temp" ∧
    convert_yasno_key_to_prometheus_name "pd.ext4p8Port" = .ok "pd_ext4p8_port" ∧
    (∀ (key n : String), convert_yasno_key_to_prometheus_name key = .ok n →
      mkYasnoMetric key = .ok ⟨key, "yasno_" ++ n⟩) := by
  refine ⟨?_, by decide, by decide, ?_⟩
  · intro key hk
    refine ⟨?_, deriveRaw_eq_specDerive key⟩
    rw [deriveRaw, pyReplaceDots]
    cases hd : key.data with
    | nil =>
        exfalso
        apply hk
        cases key with
        | mk d => cases hd; rfl
    | cons c rest => simp
  · intro key n h
    rw [mkYasnoMetric, h]

/-- Witness for C4 at the key "blackout". -/
theorem name_derivation_matches_spec_algorithm_witness :
    deriveRaw "blackout" ≠ none ∧ deriveRaw "blackout" = specDerive "blackout" ∧
    mkYasnoMetric "blackout" = .ok ⟨"blackout", "yasno_blackout"⟩ := by
  have h := name_derivation_matches_spec_algorithm
  have h1 := h.1 "blackout" (by decide)
  exact ⟨h1.1, h1.2, h.2.2.2 "blackout" "blackout" (by decide)⟩

/-! ### Claim C5 -/

/-- C5: whenever ensuring the metric for a key completes (finding or
creating an entry, or skipping a failed key), ensuring the same key again
returns exactly the same result — the same entry and the same collector,
with no duplicate appended — and the collector keeps at most one entry per
distinct source key. -/
theorem registry_ensure_idempotent_unique (reg : List YasnoMetric) (k : String) :
    ∀ m2 rest, ensure reg k = .ok (m2, rest) →
      ensure rest k = .ok (m2, rest) ∧ (countKey reg k ≤ 1 → countKey rest k ≤ 1) := by
  intro m2 rest h
  cases hf : get_metric_by_yasno_key reg k with
  | some m =>
      have h1 : ensure reg k = .ok (some m, reg) := by rw [ensure, hf]
      rw [h1] at h
      injection h with h
      injection h with hm2 hrest
      rw [← hrest, ← hm2]
      constructor
      · exact h1
      · exact fun hc => hc
  | none =>
      cases hm : mkYasnoMetric k with
      | error e =>
          cases e with
          | indexError =>
              rw [ensure, hf, hm] at h
              exact Except.noConfusion h
          | yasnoMetricException =>
              have h1 : ensure reg k = .ok (none, reg) := by rw [ensure, hf, hm]
              rw [h1] at h
              injection h with h
              injection h with hm2 hrest
              rw [← hrest, ← hm2]
              constructor
              · exact h1
              · exact fun hc => hc
      | ok m =>
          have h1 : ensure reg k = .ok (some m, reg ++ [m]) := by rw [ensure, hf, hm]
          rw [h1] at h
          injection h with h
          injection h with hm2 hrest
          rw [← hrest, ← hm2]
          have hfind : get_metric_by_yasno_key (reg ++ [m]) k = some m := by
            rw [get_metric_by_yasno_key, List.find?_append]
            rw [get_metric_by_yasno_key] at hf
            rw [hf, Option.none_or]
            exact List.find?_cons_of_pos _ (decide_eq_true (mkYasnoMetric_key hm))
          constructor
          · rw [ensure, hfind]
          · intro hc
            show countKey (reg ++ [m]) k ≤ 1
            have hnone : ∀ x ∈ reg, ¬ ((fun y => decide (y.yasno_key = k)) x = true) := by
              rw [get_metric_by_yasno_key] at hf
              exact List.find?_eq_none.mp hf
            have hfilter : reg.filter (fun y => decide (y.yasno_key = k)) = [] :=
              List.filter_eq_nil_iff.mpr hnone
            rw [countKey, List.filter_append]
            rw [show (reg.filter fun y => decide (y.yasno_key = k)) = [] from hfilter,
              List.nil_append]
            simp [mkYasnoMetric_key hm]

/-- Witness for C5: ensuring "blackout" twice from the empty collector
returns the entry created the first time, unchanged, with one entry. -/
theorem registry_ensure_idempotent_unique_witness :
    ensure [⟨"blackout", "yasno_blackout"⟩] "blackout" =
      .ok (some ⟨"blackout", "yasno_blackout"⟩, [⟨"blackout", "yasno_blackout"⟩]) ∧
    countKey [⟨"blackout", "yasno_blackout"⟩] "blackout" ≤ 1 := by
  have h := registry_ensure_idempotent_unique [] "blackout"
    (some ⟨"blackout", "yasno_blackout"⟩) [⟨"blackout", "yasno_blackout"⟩] (by decide)
  exact ⟨h.1, h.2 (by decide)⟩

/-! ### Claim C6 -/

/-- C6: the `re.match` validation is anchored at the start only — it
succeeds exactly when a full match of `[a-zA-Z_:][a-zA-Z0-9_:]*` covers
some leading decomposition of the name, i.e. exactly when the first
character is in `[a-zA-Z_:]`; derivation raises its validation error
exactly when that start-anchored match fails; and a derived name whose
leading character is valid but whose trailing characters are invalid still
passes validation and gets a gauge registered (witnessed by "foo-bar"). -/
theorem validation_start_anchored_only :
    (∀ s : List Char, reMatches s = true ↔
      ∃ c cs rest, s = (c :: cs) ++ rest ∧ isClass1 c = true ∧ ∀ x ∈ cs, isClass2 x = true) ∧
    (∀ (key : String) (d : List Char), deriveRaw key = some d →
      (convert_yasno_key_to_prometheus_name key = .error .yasnoMetricException ↔
        reMatches d = false)) ∧
    convert_yasno_key_to_prometheus_name "foo-bar" = .ok "foo-bar" ∧
    fullMatches "foo-bar".data = false ∧
    ensureKey [] "foo-bar" = .ok [⟨"foo-bar", "yasno_foo-bar"⟩] := by
  refine ⟨?_, ?_, by decide, by decide, by decide⟩
  · intro s
    constructor
    · intro h
      cases s with
      | nil => exact absurd h (by decide)
      | cons c tail =>
          refine ⟨c, [], tail, rfl, h, ?_⟩
          intro x hx
          exact absurd hx (List.not_mem_nil x)
    · rintro ⟨c, cs, rest, rfl, hc, _⟩
      exact hc
  · intro key d hd
    rw [convert_yasno_key_to_prometheus_name, hd]
    dsimp only
    cases hr : reMatches d with
    | true => simp
    | false => simp

/-- Witness for C6: the start-anchored semantics applied at the concrete
name `a-` and the fail-iff equivalence applied at the key "foo-bar". -/
theorem validation_start_anchored_only_witness :
    reMatches ['a', '-'] = true ∧
    (convert_yasno_key_to_prometheus_name "foo-bar" = .error .yasnoMetricException ↔
      reMatches "foo-bar".data = false) := by
  have h := validation_start_anchored_only
  refine ⟨(h.1 ['a', '-']).mpr ⟨'a', [], ['-'], rfl, by decide, ?_⟩,
    h.2.1 "foo-bar" "foo-bar".data (by decide)⟩
  intro x hx
  exact absurd hx (List.not_mem_nil x)

/-! ### Claim C7 -/

theorem writeStatus_ok {reg : List YasnoMetric} {grp : String}
    (hB : get_metric_by_yasno_key reg BLACKOUT = some ⟨BLACKOUT, "yasno_blackout"⟩)
    (hP : get_metric_by_yasno_key reg POSSIBLE_BLACKOUT =
        some ⟨POSSIBLE_BLACKOUT, "yasno_possible_blackout"⟩)
    (hN : get_metric_by_yasno_key reg NO_BLACKOUT = some ⟨NO_BLACKOUT, "yasno_no_blackout"⟩)
    (b p : Bool) (st : GState) : ∃ st', writeStatus reg grp b p st = .ok st' := by
  rw [writeStatus]
  cases b with
  | true =>
      rw [if_pos rfl]
      simp only [bind, Except.bind, setMetric, hB, hP, hN]
      exact ⟨_, rfl⟩
  | false =>
      rw [if_neg (by simp)]
      cases p with
      | true =>
          rw [if_pos rfl]
          simp only [bind, Except.bind, setMetric, hB, hP, hN]
          exact ⟨_, rfl⟩
      | false =>
          rw [if_neg (by simp)]
          simp only [bind, Except.bind, setMetric, hB, hP, hN]
          exact ⟨_, rfl⟩

theorem processGroup_ok {fetch : String → Except Unit (List VComponent)} {clock : Nat → Int}
    {g : String} {reg : List YasnoMetric} {st : GState} {ci : Nat}
    (hwf : WF reg) (hf : (fetch g).isOk = true) :
    ∃ t, processGroup fetch clock g reg st ci = .ok t ∧ WF t.1 := by
  obtain ⟨reg3, he, hB, hP, hN, hwfR⟩ := lookup_status_keys hwf
  cases hfe : fetch g with
  | error u =>
      rw [hfe] at hf
      exact absurd hf (by simp [Except.isOk, Except.toBool])
  | ok events =>
      obtain ⟨st', hw⟩ := writeStatus_ok hB hP hN
        (scanEvents clock ci events false false).blackout
        (scanEvents clock ci events false false).possible_blackout st
      refine ⟨(reg3, st', (scanEvents clock ci events false false).nextClock), ?_, hwfR⟩
      simp only [processGroup, he, hfe]
      rw [hw]

theorem processGroups_ok {fetch : String → Except Unit (List VComponent)} {clock : Nat → Int}
    (hf : ∀ g, (fetch g).isOk = true) :
    ∀ (gs : List String) (reg : List YasnoMetric) (st : GState) (ci : Nat), WF reg →
    (processGroups fetch clock gs reg st ci).isOk = true := by
  intro gs
  induction gs with
  | nil => intro reg st ci _; rfl
  | cons g rest ih =>
      intro reg st ci hwf
      obtain ⟨t, hpg, hwft⟩ :=
        @processGroup_ok fetch clock g reg st ci hwf (hf g)
      obtain ⟨reg', st', ci'⟩ := t
      rw [processGroups, hpg]
      exact ih reg' st' ci' hwft

/-- C7: a name-derivation failure — the `YasnoMetricException` the spec
documents as NameDerivationError, the only exception the ensuring loop's
`try` catches — is non-fatal: the failing key gets no collector entry and
the loop just `continue`s; the three actual status keys always derive
successfully; and a cycle whose fetches all succeed completes for every
key and all six groups without crashing the loop. -/
theorem derivation_failure_nonfatal_cycle_completes :
    (∀ (k : String) (reg : List YasnoMetric),
      mkYasnoMetric k = .error .yasnoMetricException → ensureKey reg k = .ok reg) ∧
    (∀ k ∈ STATUS_KEYS, (mkYasnoMetric k).isOk = true) ∧
    (∀ (fetch : String → Except Unit (List VComponent)) (clock : Nat → Int)
        (reg : List YasnoMetric) (st : GState) (ci : Nat),
      WF reg → (∀ g, (fetch g).isOk = true) →
      (process_calendar fetch clock reg st ci).isOk = true) := by
  refine ⟨?_, by decide, ?_⟩
  · intro k reg h
    exact ensureKey_of_yasnoException h reg
  · intro fetch clock reg st ci hwf hf
    exact processGroups_ok hf GROUPS reg st ci hwf

/-- Witness for C7: the key "1bad" fails derivation with the caught
exception and is skipped without touching the collector, the BLACKOUT key
derives, and a cycle with six successful empty fetches completes. -/
theorem derivation_failure_nonfatal_cycle_completes_witness :
    ensureKey [] "1bad" = .ok [] ∧
    (mkYasnoMetric BLACKOUT).isOk = true ∧
    (process_calendar (fun _ => .ok []) (fun _ => 0) [] emptyG 0).isOk = true := by
  have h := derivation_failure_nonfatal_cycle_completes
  refine ⟨h.1 "1bad" [] (by decide), h.2.1 BLACKOUT (by decide),
    h.2.2 (fun _ => .ok []) (fun _ => 0) [] emptyG 0 ?_ (fun g => rfl)⟩
  intro m hm
  exact absurd hm (List.not_mem_nil m)

/-! ### Claim C8 -/

theorem mem_pyReplaceDots_ne_dot {l : List Char} {c : Char} (h : c ∈ pyReplaceDots l) :
    c ≠ '.' := by
  rw [pyReplaceDots] at h
  rcases List.mem_map.mp h with ⟨x, _, hx⟩
  by_cases hd : x = '.'
  · rw [hd] at hx
    simp at hx
    rw [← hx]
    decide
  · rw [if_neg hd] at hx
    rw [← hx]
    exact hd

theorem walkAux_chars : ∀ (rest acc : List Char),
    (∀ c ∈ acc, pyIsUpper c = false ∧ c ≠ '.') → (∀ c ∈ rest, c ≠ '.') →
    ∀ c ∈ walkAux acc rest, pyIsUpper c = false ∧ c ≠ '.' := by
  intro rest
  induction rest with
  | nil => intro acc hacc _ c hc; exact hacc c hc
  | cons x xs ih =>
      intro acc hacc hrest c hc
      rw [walkAux] at hc
      refine ih _ ?_ (fun y hy => hrest y (List.mem_cons_of_mem x hy)) c hc
      intro y hy
      rcases List.mem_append.mp hy with hy | hy
      · by_cases hcond : pyIsUpper x = true ∧ acc.getLast? ≠ some '_'
        · rw [if_pos hcond] at hy
          rcases List.mem_append.mp hy with hy | hy
          · exact hacc y hy
          · rcases List.mem_singleton.mp hy with rfl
            exact ⟨by decide, by decide⟩
        · rw [if_neg hcond] at hy
          exact hacc y hy
      · rcases List.mem_singleton.mp hy with rfl
        exact ⟨pyIsUpper_pyToLower x, pyToLower_ne_dot (hrest x (List.mem_cons_self x xs))⟩

theorem walkAux_fixed : ∀ (rest acc : List Char), (∀ c ∈ rest, pyIsUpper c = false) →
    walkAux acc rest = acc ++ rest := by
  intro rest
  induction rest with
  | nil => intro acc _; rw [walkAux, List.append_nil]
  | cons x xs ih =>
      intro acc h
      have hx : pyIsUpper x = false := h x (List.mem_cons_self x xs)
      rw [walkAux]
      rw [if_neg (by rw [hx]; rintro ⟨h1, _⟩; exact Bool.false_ne_true h1)]
      rw [pyToLower_of_not_upper hx]
      rw [ih (acc ++ [x]) (fun y hy => h y (List.mem_cons_of_mem x hy))]
      rw [List.append_assoc]
      rfl

theorem pyReplaceDots_fixed {l : List Char} (h : ∀ c ∈ l, c ≠ '.') : pyReplaceDots l = l := by
  induction l with
  | nil => rfl
  | cons x xs ih =>
      rw [pyReplaceDots, List.map_cons]
      rw [if_neg (h x (List.mem_cons_self x xs))]
      rw [show (xs.map fun c => if c = '.' then '_' else c) = pyReplaceDots xs from rfl]
      rw [ih fun y hy => h y (List.mem_cons_of_mem x hy)]

/-- C8: name derivation is deterministic (it is a function of the key),
and idempotent on its own output: applying
`convert_yasno_key_to_prometheus_name` to a name it returned gives that
same name back, successfully. -/
theorem derivation_idempotent_on_output (key s : String)
    (h : convert_yasno_key_to_prometheus_name key = .ok s) :
    convert_yasno_key_to_prometheus_name s = .ok s := by
  rw [convert_yasno_key_to_prometheus_name] at h
  cases hd : deriveRaw key with
  | none => rw [hd] at h; exact Except.noConfusion h
  | some d =>
      rw [hd] at h
      dsimp only at h
      cases hr : reMatches d with
      | false => rw [hr] at h; simp at h
      | true =>
          rw [hr, if_pos rfl] at h
          injection h with h
          have hchars : ∀ c ∈ d, pyIsUpper c = false ∧ c ≠ '.' := by
            rw [deriveRaw] at hd
            cases hrep : pyReplaceDots key.data with
            | nil => rw [hrep] at hd; dsimp only at hd; exact Option.noConfusion hd
            | cons c0 rest =>
                rw [hrep] at hd
                dsimp only at hd
                injection hd with hd
                rw [← hd]
                have hnodot : ∀ c ∈ c0 :: rest, c ≠ '.' := by
                  rw [← hrep]
                  intro c hc
                  exact mem_pyReplaceDots_ne_dot hc
                refine walkAux_chars rest [pyToLower c0] ?_ ?_
                · intro y hy
                  rcases List.mem_singleton.mp hy with rfl
                  exact ⟨pyIsUpper_pyToLower c0,
                    pyToLower_ne_dot (hnodot c0 (List.mem_cons_self c0 rest))⟩
                · intro y hy
                  exact hnodot y (List.mem_cons_of_mem c0 hy)
          rw [← h]
          rw [convert_yasno_key_to_prometheus_name, deriveRaw]
          have hdata : (String.mk d).data = d := rfl
          rw [hdata]
          rw [pyReplaceDots_fixed fun c hc => (hchars c hc).2]
          cases hdc : d with
          | nil => rw [hdc] at hr; exact absurd hr (by decide)
          | cons c0 tail =>
              dsimp only
              rw [pyToLower_of_not_upper (hchars c0 (hdc ▸ List.mem_cons_self c0 tail)).1]
              rw [walkAux_fixed tail [c0]
                (fun y hy => (hchars y (hdc ▸ List.mem_cons_of_mem c0 hy)).1)]
              rw [show [c0] ++ tail = c0 :: tail from rfl]
              rw [← hdc, hr, if_pos rfl]

/-- Witness for C8: re-deriving the derived name of the documented example
key returns it unchanged. -/
theorem derivation_idempotent_on_output_witness :
    convert_yasno_key_to_prometheus_name "bms_bms_status_max_cell_temp" =
      .ok "bms_bms_status_max_cell_temp" :=
  derivation_idempotent_on_output "bms_bmsStatus.maxCellTemp" "bms_bms_status_max_cell_temp"
    (by decide)

/-! ### Claim C9 -/

/-- C9 counterexample: `now` is evaluated inside the event loop, once per
VEVENT, not once per group. With a clock that reads 0 for the first event
and 10 for the second, and a calendar whose first event is a "possible
outage" covering instant 0 and whose second is a "no power" covering
instant 10, the loop consumes two clock readings (not one) and reports
blackout, while the single-instant reference evaluator at the group's
first reading reports possible_blackout. -/
theorem clock_read_per_event_cex :
    (scanEvents (fun n => if n = 0 then (0 : Int) else 10) 0
        [⟨"VEVENT", "Можливе відключення", -1, 1⟩, ⟨"VEVENT", "Світла немає", 9, 11⟩]
        false false).nextClock = 2 ∧
    ((scanEvents (fun n => if n = 0 then (0 : Int) else 10) 0
        [⟨"VEVENT", "Можливе відключення", -1, 1⟩, ⟨"VEVENT", "Світла немає", 9, 11⟩]
        false false).blackout,
      (scanEvents (fun n => if n = 0 then (0 : Int) else 10) 0
        [⟨"VEVENT", "Можливе відключення", -1, 1⟩, ⟨"VEVENT", "Світла немає", 9, 11⟩]
        false false).possible_blackout) ≠
      specSingleInstantScan 0
        [⟨"VEVENT", "Можливе відключення", -1, 1⟩, ⟨"VEVENT", "Світла немає", 9, 11⟩]
        false false ∧
    triState (scanEvents (fun n => if n = 0 then (0 : Int) else 10) 0
        [⟨"VEVENT", "Можливе відключення", -1, 1⟩, ⟨"VEVENT", "Світла немає", 9, 11⟩]
        false false).blackout
      (scanEvents (fun n => if n = 0 then (0 : Int) else 10) 0
        [⟨"VEVENT", "Можливе відключення", -1, 1⟩, ⟨"VEVENT", "Світла немає", 9, 11⟩]
        false false).possible_blackout ≠
      triState (specSingleInstantScan 0
        [⟨"VEVENT", "Можливе відключення", -1, 1⟩, ⟨"VEVENT", "Світла немає", 9, 11⟩]
        false false).1
        (specSingleInstantScan 0
        [⟨"VEVENT", "Можливе відключення", -1, 1⟩, ⟨"VEVENT", "Світла немає", 9, 11⟩]
        false false).2 := by
  refine ⟨rfl, ?_, ?_⟩ <;> decide

/-- C9 (amended): the current instant is recomputed for every VEVENT
inside the event loop (one clock reading per VEVENT), each event being
tested against its own reading; whenever all the readings taken during a
group coincide, the evaluator's flags equal those of the single-instant
reference evaluator at that shared instant. -/
theorem constant_clock_refines_single_instant (t : Int) :
    ∀ (es : List VComponent) (i : Nat) (b p : Bool),
    ((scanEvents (fun _ => t) i es b p).blackout,
      (scanEvents (fun _ => t) i es b p).possible_blackout) =
      specSingleInstantScan t es b p := by
  intro es
  induction es with
  | nil => intro i b p; rfl
  | cons e rest ih =>
      intro i b p
      by_cases h1 : e.name = "VEVENT"
      · by_cases h2 : e.dtstart < t ∧ t < e.dtend
        · by_cases h3 : e.summary = "Світла немає"
          · simp [scanEvents, specSingleInstantScan, h1, h2, h3]
          · by_cases h4 : e.summary = "Можливе відключення"
            · simpa [scanEvents, specSingleInstantScan, h1, h2, h3, h4] using ih (i + 1) b true
            · simpa [scanEvents, specSingleInstantScan, h1, h2, h3, h4] using ih (i + 1) b p
        · simpa [scanEvents, specSingleInstantScan, h1, h2] using ih (i + 1) b p
      · simpa [scanEvents, specSingleInstantScan, h1] using ih i b p

/-! ### Claim C10 -/

theorem deriveRaw_some_of_ne_empty {key : String} (hk : key ≠ "") : deriveRaw key ≠ none := by
  rw [deriveRaw, pyReplaceDots]
  cases hd : key.data with
  | nil =>
      exfalso
      apply hk
      cases key with
      | mk d => cases hd; rfl
  | cons c rest => simp

/-- C10: on the empty key, derivation fails before validation with the
`IndexError` of `key[0]`, not with the documented `YasnoMetricException`;
for every non-empty key that out-of-bounds branch is unreachable. -/
theorem empty_key_index_error :
    convert_yasno_key_to_prometheus_name "" = .error .indexError ∧
    (∀ key : String, key ≠ "" →
      convert_yasno_key_to_prometheus_name key ≠ .error .indexError) := by
  constructor
  · decide
  · intro key hk
    rw [convert_yasno_key_to_prometheus_name]
    cases hd : deriveRaw key with
    | none => exact absurd hd (deriveRaw_some_of_ne_empty hk)
    | some d =>
        dsimp only
        cases hr : reMatches d with
        | true => simp
        | false => simp

/-- Witness for C10: the non-empty key "a" cannot produce the IndexError
branch. -/
theorem empty_key_index_error_witness :
    convert_yasno_key_to_prometheus_name "a" ≠ .error .indexError :=
  empty_key_index_error.2 "a" (by decide)

end YasnoExporter
